import Mathlib

/- Verification of the version-history algebra, the workflow resetter and the
persistent message queue of the cadence repository.

The definitions below are shallow embeddings of the Go source:
- persistence version history (VersionHistoryItem / VersionHistory /
  VersionHistories and their operations),
- the sql-backed queue (EnqueueMessage, ReadMessages, DeleteMessagesBefore,
  UpdateAckLevel, GetAckLevels),
- the decision gate and in-flight-activity failure steps of the canonical
  workflow resetter.

Go int64 values are modelled as Int (the operations only compare and copy, no
overflowing arithmetic occurs), byte slices as List Nat, and Go panics as a
distinguished error constructor so that every function stays total. -/

namespace Cadence

/-- FirstEventID, from the common package (modelled from the spec: process-wide
constant, value 1). -/
def firstEventID : Int := 1

/-- EmptyEventID, from the common package (modelled from the spec: process-wide
constant, value 0). -/
def emptyEventID : Int := 0

/-- TransientEventID, from the common package (modelled from the spec:
process-wide constant, value -23). -/
def transientEventID : Int := -23

/-- EmptyVersion, from the common package (modelled from the spec: a negative
sentinel version; the exact value is immaterial to the claims). -/
def emptyVersion : Int := -24

/-- Errors and panics surfaced by the version-history operations.  badRequest
models shared.BadRequestError (the InvalidArgument of the spec), panicked
models a Go panic. -/
inductive VHErr where
  | badRequest (msg : String)
  | panicked (msg : String)
deriving Repr, DecidableEq

/-- VersionHistoryItem: the pair of event ID and failover version. -/
structure VersionHistoryItem where
  eventID : Int
  version : Int
deriving Repr, DecidableEq

/-- NewVersionHistoryItem: validates the pair and panics when the event ID is
negative or the version is negative without being the EmptyVersion sentinel. -/
def newVersionHistoryItem (inputEventID inputVersion : Int) :
    Except VHErr VersionHistoryItem :=
  if inputEventID < 0 || (inputVersion < 0 && inputVersion != emptyVersion) then
    .error (.panicked "invalid version history item")
  else
    .ok { eventID := inputEventID, version := inputVersion }

/-- VersionHistoryItem.Duplicate: deep copy through the validating
constructor. -/
def VersionHistoryItem.duplicate (item : VersionHistoryItem) :
    Except VHErr VersionHistoryItem :=
  newVersionHistoryItem item.eventID item.version

/-- VersionHistoryItem.Equals: structural equality on both fields. -/
def VersionHistoryItem.equals (item input : VersionHistoryItem) : Bool :=
  item.version == input.version && item.eventID == input.eventID

/-- An item that passes the constructor validation. -/
def validItem (item : VersionHistoryItem) : Prop :=
  0 ≤ item.eventID ∧ (0 ≤ item.version ∨ item.version = emptyVersion)

instance (item : VersionHistoryItem) : Decidable (validItem item) := by
  unfold validItem; infer_instance

/-- VersionHistory: an opaque branch token plus the ordered item list. -/
structure VersionHistory where
  branchToken : List Nat
  items : List VersionHistoryItem
deriving Repr, DecidableEq

/-- VersionHistory.AddOrUpdateItem: append into an empty history, reject lower
versions and non-advancing event IDs, append a duplicate on a strictly larger
version, and otherwise raise the last item's event ID in place. -/
def VersionHistory.addOrUpdateItem (v : VersionHistory)
    (item : VersionHistoryItem) : Except VHErr VersionHistory :=
  match v.items.getLast? with
  | none =>
      match item.duplicate with
      | .error e => .error e
      | .ok d => .ok { v with items := [d] }
  | some lastItem =>
      if item.version < lastItem.version then
        .error (.badRequest "cannot update version history with a lower version")
      else if item.eventID ≤ lastItem.eventID then
        .error (.badRequest "cannot add version history with a lower event id")
      else if item.version > lastItem.version then
        match item.duplicate with
        | .error e => .error e
        | .ok d => .ok { v with items := v.items ++ [d] }
      else
        .ok { v with items :=
          v.items.dropLast ++ [{ lastItem with eventID := item.eventID }] }

/-- The strict-increase invariant on an item list: successive entries grow in
both the event ID and the version. -/
def itemsIncreasing (items : List VersionHistoryItem) : Prop :=
  items.Pairwise (fun a b => a.eventID < b.eventID ∧ a.version < b.version)

instance (items : List VersionHistoryItem) : Decidable (itemsIncreasing items) := by
  unfold itemsIncreasing; infer_instance

/-- A history whose items all pass constructor validation and are strictly
increasing in both coordinates. -/
def validHistory (v : VersionHistory) : Prop :=
  itemsIncreasing v.items ∧ ∀ item ∈ v.items, validItem item

instance (v : VersionHistory) : Decidable (validHistory v) := by
  unfold validHistory; infer_instance

/-- The loop body of NewVersionHistory: duplicate every input item and feed it
through AddOrUpdateItem, starting from the given accumulator. -/
def addAllItems : VersionHistory → List VersionHistoryItem →
    Except VHErr VersionHistory
  | vh, [] => .ok vh
  | vh, item :: rest =>
    match item.duplicate with
    | .error e => .error e
    | .ok d =>
      match vh.addOrUpdateItem d with
      | .error e => .error e
      | .ok vh' => addAllItems vh' rest

/-- NewVersionHistory: copy the token, then rebuild the item list through
AddOrUpdateItem; any failure is a panic ("unable to initialize version
history"). -/
def newVersionHistory (inputToken : List Nat)
    (inputItems : List VersionHistoryItem) : Except VHErr VersionHistory :=
  match addAllItems { branchToken := inputToken, items := [] } inputItems with
  | .ok vh => .ok vh
  | .error _ => .error (.panicked "unable to initialize version history")

/-- VersionHistory.Duplicate: rebuild through NewVersionHistory. -/
def VersionHistory.duplicate (v : VersionHistory) : Except VHErr VersionHistory :=
  newVersionHistory v.branchToken v.items

/-- VersionHistory.GetFirstItem: duplicate of the first item, or badRequest on
an empty history. -/
def VersionHistory.getFirstItem (v : VersionHistory) :
    Except VHErr VersionHistoryItem :=
  match v.items with
  | [] => .error (.badRequest "version history is empty.")
  | x :: _ => x.duplicate

/-- VersionHistory.GetLastItem: duplicate of the last item, or badRequest on an
empty history. -/
def VersionHistory.getLastItem (v : VersionHistory) :
    Except VHErr VersionHistoryItem :=
  match v.items.getLast? with
  | none => .error (.badRequest "version history is empty.")
  | some x => x.duplicate

/-- The loop of VersionHistory.ContainsItem: walk the items keeping the
previous event ID, answering true when the probe's version matches and its
event ID falls in the half-open window, with the special sentinel case for
event ID FirstEventID - 1. -/
def containsItemAux (probe : VersionHistoryItem) :
    Int → List VersionHistoryItem → Bool
  | _, [] => false
  | prevEventID, currentItem :: rest =>
    if probe.version == currentItem.version then
      if probe.eventID == firstEventID - 1 && probe.eventID ≤ currentItem.eventID then
        true
      else if prevEventID < probe.eventID && probe.eventID ≤ currentItem.eventID then
        true
      else
        containsItemAux probe currentItem.eventID rest
    else if probe.version < currentItem.version then
      false
    else
      containsItemAux probe currentItem.eventID rest

/-- VersionHistory.ContainsItem. -/
def VersionHistory.containsItem (v : VersionHistory)
    (item : VersionHistoryItem) : Bool :=
  containsItemAux item (firstEventID - 1) v.items

/-- The two-pointer descent of VersionHistory.FindLCAItem, expressed on the
reversed item lists (head of each list = tail of the history). -/
def findLCARev : List VersionHistoryItem → List VersionHistoryItem →
    Except VHErr VersionHistoryItem
  | localItem :: localRest, remoteItem :: remoteRest =>
    if localItem.version == remoteItem.version then
      if localItem.eventID > remoteItem.eventID then
        remoteItem.duplicate
      else
        localItem.duplicate
    else if localItem.version > remoteItem.version then
      findLCARev localRest (remoteItem :: remoteRest)
    else
      findLCARev (localItem :: localRest) remoteRest
  | _, _ =>
    .error (.badRequest "version history is malformed. No joint point found.")
termination_by l r => l.length + r.length

/-- VersionHistory.FindLCAItem: descend from the tails of both histories. -/
def VersionHistory.findLCAItem (v remote : VersionHistory) :
    Except VHErr VersionHistoryItem :=
  findLCARev v.items.reverse remote.items.reverse

/-- The loop of VersionHistory.DuplicateUntilLCAItem: copy items with smaller
versions into the accumulator, and at the matching version append the LCA item
itself unless the original covers fewer events. -/
def duplicateUntilLCAItemGo (lcaItem : VersionHistoryItem) :
    VersionHistory → List VersionHistoryItem → Except VHErr VersionHistory
  | _, [] => .error (.badRequest "version history does not contains the LCA item.")
  | acc, item :: rest =>
    if item.version < lcaItem.version then
      match acc.addOrUpdateItem item with
      | .error e => .error e
      | .ok acc' => duplicateUntilLCAItemGo lcaItem acc' rest
    else if item.version == lcaItem.version then
      if lcaItem.eventID > item.eventID then
        .error (.badRequest "version history does not contains the LCA item.")
      else
        acc.addOrUpdateItem lcaItem
    else
      .error (.badRequest "version history does not contains the LCA item.")

/-- VersionHistory.DuplicateUntilLCAItem: start from NewVersionHistory(nil,
nil), whose branch token is the empty byte slice. -/
def VersionHistory.duplicateUntilLCAItem (v : VersionHistory)
    (lcaItem : VersionHistoryItem) : Except VHErr VersionHistory :=
  duplicateUntilLCAItemGo lcaItem { branchToken := [], items := [] } v.items

/-- Wire (thrift) form of a VersionHistoryItem: two optional int64 fields. -/
structure TVersionHistoryItem where
  eventID : Option Int
  version : Option Int
deriving Repr, DecidableEq

/-- Wire (thrift) form of a VersionHistory. -/
structure TVersionHistory where
  branchToken : List Nat
  items : List TVersionHistoryItem
deriving Repr, DecidableEq

/-- Wire (thrift) form of a VersionHistories; the current index travels as an
optional int32. -/
structure TVersionHistories where
  currentVersionHistoryIndex : Option Int
  histories : List TVersionHistory
deriving Repr, DecidableEq

/-- Truncation of a Go int to int32, as performed by int32(i). -/
def wrap32 (i : Int) : Int := (i + 2 ^ 31) % 2 ^ 32 - 2 ^ 31

/-- VersionHistoryItem.ToThrift: both fields set. -/
def VersionHistoryItem.toThrift (item : VersionHistoryItem) :
    TVersionHistoryItem :=
  { eventID := some item.eventID, version := some item.version }

/-- NewVersionHistoryItemFromThrift: thrift getters default missing fields to
0, then the validating constructor runs. -/
def newVersionHistoryItemFromThrift (input : TVersionHistoryItem) :
    Except VHErr VersionHistoryItem :=
  newVersionHistoryItem (input.eventID.getD 0) (input.version.getD 0)

/-- VersionHistory.ToThrift: copy the token and convert each item. -/
def VersionHistory.toThrift (v : VersionHistory) : TVersionHistory :=
  { branchToken := v.branchToken,
    items := v.items.map VersionHistoryItem.toThrift }

/-- The item-collection loop of NewVersionHistoryFromThrift. -/
def itemsFromThrift : List TVersionHistoryItem →
    Except VHErr (List VersionHistoryItem)
  | [] => .ok []
  | t :: rest =>
    match newVersionHistoryItemFromThrift t with
    | .error e => .error e
    | .ok x =>
      match itemsFromThrift rest with
      | .error e => .error e
      | .ok xs => .ok (x :: xs)

/-- NewVersionHistoryFromThrift: convert every item, then rebuild through
NewVersionHistory. -/
def newVersionHistoryFromThrift (input : TVersionHistory) :
    Except VHErr VersionHistory :=
  match itemsFromThrift input.items with
  | .error e => .error e
  | .ok items => newVersionHistory input.branchToken items

/-- VersionHistories: the branch collection plus the current branch index. -/
structure VersionHistories where
  currentVersionHistoryIndex : Int
  histories : List VersionHistory
deriving Repr, DecidableEq

/-- NewVersionHistories: a single branch at index 0; a null input panics. -/
def newVersionHistories (versionHistory : Option VersionHistory) :
    Except VHErr VersionHistories :=
  match versionHistory with
  | none => .error (.panicked "version history cannot be null")
  | some vh => .ok { currentVersionHistoryIndex := 0, histories := [vh] }

/-- VersionHistories.GetVersionHistory, with the guard exactly as in the
source: indices strictly negative or strictly greater than the length are
rejected, and an index equal to the length slips past the guard into an
out-of-range slice access, which in Go is a runtime panic. -/
def VersionHistories.getVersionHistory (h : VersionHistories)
    (branchIndex : Int) : Except VHErr VersionHistory :=
  if branchIndex < 0 || branchIndex > h.histories.length then
    .error (.badRequest "invalid branch index.")
  else
    match h.histories.get? branchIndex.toNat with
    | some vh => .ok vh
    | none => .error (.panicked "runtime error: index out of range")

/-- VersionHistories.AddVersionHistory: validate the incoming history, compare
first-item versions against the current branch, append a duplicate, and switch
the current branch when the new last-item version is strictly larger.  Returns
(currentBranchChanged, newVersionHistoryIndex, updated collection). -/
def VersionHistories.addVersionHistory (h : VersionHistories)
    (v : Option VersionHistory) :
    Except VHErr (Bool × Int × VersionHistories) :=
  match v with
  | none => .error (.badRequest "version histories is null.")
  | some v =>
    match v.getFirstItem with
    | .error e => .error e
    | .ok incomingFirstItem =>
    match h.getVersionHistory h.currentVersionHistoryIndex with
    | .error e => .error e
    | .ok currentVersionHistory =>
    match currentVersionHistory.getFirstItem with
    | .error e => .error e
    | .ok currentFirstItem =>
    if incomingFirstItem.version != currentFirstItem.version then
      .error (.badRequest "version history first item does not match.")
    else
      match v.duplicate with
      | .error e => .error e
      | .ok newVersionHistory =>
      let histories' := h.histories ++ [newVersionHistory]
      let newVersionHistoryIndex : Int := (histories'.length : Int) - 1
      match newVersionHistory.getLastItem with
      | .error e => .error e
      | .ok newLastItem =>
      match currentVersionHistory.getLastItem with
      | .error e => .error e
      | .ok currentLastItem =>
      if newLastItem.version > currentLastItem.version then
        .ok (true, newVersionHistoryIndex,
          { currentVersionHistoryIndex := newVersionHistoryIndex,
            histories := histories' })
      else
        .ok (false, newVersionHistoryIndex, { h with histories := histories' })

/-- VersionHistories.ToThrift: the index travels as int32. -/
def VersionHistories.toThrift (h : VersionHistories) : TVersionHistories :=
  { currentVersionHistoryIndex := some (wrap32 h.currentVersionHistoryIndex),
    histories := h.histories.map VersionHistory.toThrift }

/-- One step of the rebuild loop of NewVersionHistoriesFromThrift: convert the
wire history and add it; an add failure panics. -/
def addFromThriftStep (acc : VersionHistories) (th : TVersionHistory) :
    Except VHErr VersionHistories :=
  match newVersionHistoryFromThrift th with
  | .error e => .error e
  | .ok vh =>
    match acc.addVersionHistory (some vh) with
    | .ok r => .ok r.2.2
    | .error _ => .error (.panicked "unable to initialize version histories")

/-- The rebuild loop of NewVersionHistoriesFromThrift over the remaining wire
histories. -/
def historiesFromThriftLoop : VersionHistories → List TVersionHistory →
    Except VHErr VersionHistories
  | acc, [] => .ok acc
  | acc, th :: rest =>
    match addFromThriftStep acc th with
    | .error e => .error e
    | .ok acc' => historiesFromThriftLoop acc' rest

/-- NewVersionHistoriesFromThrift: reject an empty collection, rebuild every
branch through AddVersionHistory, then panic if the recomputed current index
disagrees with the one carried on the wire. -/
def newVersionHistoriesFromThrift (input : TVersionHistories) :
    Except VHErr VersionHistories :=
  match input.histories with
  | [] => .error (.panicked "version histories cannot have empty")
  | th₀ :: rest =>
    let currentVersionHistoryIndex := input.currentVersionHistoryIndex.getD 0
    match newVersionHistoryFromThrift th₀ with
    | .error e => .error e
    | .ok vh₀ =>
    match newVersionHistories (some vh₀) with
    | .error e => .error e
    | .ok init =>
    match historiesFromThriftLoop init rest with
    | .error e => .error e
    | .ok result =>
    if currentVersionHistoryIndex != result.currentVersionHistoryIndex then
      .error (.panicked "unable to initialize version histories: current index mismatch")
    else
      .ok result

/-- The last-item version of a history, defaulting to 0 on an empty history
(only ever used on non-empty histories). -/
def lastVersionD (v : VersionHistory) : Int :=
  ((v.items.getLast?).map VersionHistoryItem.version).getD 0

/-- The current index recomputed by the AddVersionHistory loop when a
collection is rebuilt from its wire form: a running strict-record scan of the
last-item versions. -/
def recomputedIndexAux : Nat → Int → Nat → List VersionHistory → Nat
  | curIdx, _, _, [] => curIdx
  | curIdx, curLastV, i, vh :: rest =>
    if lastVersionD vh > curLastV then
      recomputedIndexAux i (lastVersionD vh) (i + 1) rest
    else
      recomputedIndexAux curIdx curLastV (i + 1) rest

/-- The current index the thrift decode loop arrives at for a given branch
list. -/
def recomputedIndex : List VersionHistory → Nat
  | [] => 0
  | v₀ :: rest => recomputedIndexAux 0 (lastVersionD v₀) 1 rest

/-- A structurally valid VersionHistories value: non-empty, every branch valid
and non-empty, the current index in range, and all branches sharing the same
very first item. -/
def validHistories (h : VersionHistories) : Prop :=
  (∀ v ∈ h.histories, validHistory v ∧ v.items ≠ []) ∧
  0 ≤ h.currentVersionHistoryIndex ∧
  h.currentVersionHistoryIndex < h.histories.length ∧
  ∃ firstItem, ∀ v ∈ h.histories, v.items.head? = some firstItem

/- ----------------------------------------------------------------------
The sql-backed persistent message queue (sqlQueue).  The storage layer
(sqldb.Tx / sqldb.Interface) is an external collaborator: each operation is
parametrised by the outcome the storage returns, and the ack-level state is
threaded explicitly.  txExecute is modelled from the spec: it runs the body in
a serializable transaction and hands its error back to the caller.
---------------------------------------------------------------------- -/

/-- Outcomes of a raw storage call: sql.ErrNoRows or some other failure. -/
inductive DBErr where
  | noRows
  | failure (msg : String)
deriving Repr, DecidableEq

/-- The error string of a storage failure, as err.Error() renders it. -/
def dbErrMsg : DBErr → String
  | .noRows => "sql: no rows in result set"
  | .failure msg => msg

/-- Errors surfaced by the queue operations: internalService models
shared.InternalServiceError, raw models an unwrapped storage error returned
as-is. -/
inductive QueueErr where
  | internalService (msg : String)
  | raw (msg : String)
deriving Repr, DecidableEq

/-- Whether a queue error is an InternalServiceError. -/
def QueueErr.isInternal : QueueErr → Bool
  | .internalService _ => true
  | .raw _ => false

/-- A row of the queue table. -/
structure QueueRow where
  messageID : Int
  messagePayload : List Nat
deriving Repr, DecidableEq

/-- A message handed back to the caller of ReadMessages. -/
structure QueueMessage where
  id : Int
  payload : List Nat
deriving Repr, DecidableEq

/-- The transaction body of sqlQueue.EnqueueMessage: read the last enqueued
message ID for update (ErrNoRows counts as -1, any other failure becomes a
plain error), then insert at lastMessageID + 1.  The storage layer is the
external collaborator, so its two outcomes are parameters. -/
def enqueueMessageTx (messagePayload : List Nat)
    (getLastResult : Except DBErr Int)
    (insertResult : QueueRow → Except DBErr Unit) : Except String Unit :=
  match
    (match getLastResult with
     | .error .noRows => Except.ok (-1 : Int)
     | .error e =>
       Except.error ("failed to get last enqueued message id: " ++ dbErrMsg e)
     | .ok v => Except.ok v) with
  | .error msg => .error msg
  | .ok lastMessageID =>
    match insertResult { messageID := lastMessageID + 1,
                         messagePayload := messagePayload } with
    | .error e => .error (dbErrMsg e)
    | .ok _ => .ok ()

/-- sqlQueue.EnqueueMessage: run the transaction body and wrap any error into
an InternalServiceError. -/
def enqueueMessage (messagePayload : List Nat)
    (getLastResult : Except DBErr Int)
    (insertResult : QueueRow → Except DBErr Unit) : Except QueueErr Unit :=
  match enqueueMessageTx messagePayload getLastResult insertResult with
  | .error msg => .error (.internalService msg)
  | .ok _ => .ok ()

/-- sqlQueue.ReadMessages: a storage failure is returned to the caller as-is,
without wrapping. -/
def readMessages (rowsResult : Except DBErr (List QueueRow)) :
    Except QueueErr (List QueueMessage) :=
  match rowsResult with
  | .error e => .error (.raw (dbErrMsg e))
  | .ok rows =>
    .ok (rows.map fun row => { id := row.messageID, payload := row.messagePayload })

/-- sqlQueue.DeleteMessagesBefore: a storage failure is wrapped into an
InternalServiceError. -/
def deleteMessagesBefore (deleteResult : Except DBErr Int) :
    Except QueueErr Unit :=
  match deleteResult with
  | .error e =>
    .error (.internalService ("DeleteMessagesBefore operation failed. Error " ++ dbErrMsg e))
  | .ok _ => .ok ()

/-- The persisted ack-level map: one entry per cluster name. -/
def AckLevels := List (String × Int)

/-- Go map lookup: the value stored for a cluster, if any. -/
def lookupAck : List (String × Int) → String → Option Int
  | [], _ => none
  | p :: ps, clusterName =>
    if p.1 == clusterName then some p.2 else lookupAck ps clusterName

/-- Go map read: a missing key reads as 0. -/
def getAckD (levels : List (String × Int)) (clusterName : String) : Int :=
  (lookupAck levels clusterName).getD 0

/-- Go map write: overwrite the entry for the cluster or add a new one. -/
def setAck : List (String × Int) → String → Int → List (String × Int)
  | [], clusterName, messageID => [(clusterName, messageID)]
  | p :: ps, clusterName, messageID =>
    if p.1 == clusterName then (clusterName, messageID) :: ps
    else p :: setAck ps clusterName messageID

/-- The state transition of sqlQueue.UpdateAckLevel on the persisted ack-level
map (none = no row yet): insert a fresh map when absent, ignore a message ID
below the cluster's stored level, otherwise set the cluster's entry.  The
serializable transaction and the storage writes are modelled from the spec as
this atomic read-modify-write. -/
def updateAckLevel (state : Option (List (String × Int)))
    (messageID : Int) (clusterName : String) : Option (List (String × Int)) :=
  match state with
  | none => some [(clusterName, messageID)]
  | some clusterAckLevels =>
    if getAckD clusterAckLevels clusterName > messageID then
      some clusterAckLevels
    else
      some (setAck clusterAckLevels clusterName messageID)

/-- A sequence of successful UpdateAckLevel calls applied in order. -/
def applyAckCalls (state : Option (List (String × Int)))
    (calls : List (Int × String)) : Option (List (String × Int)) :=
  calls.foldl (fun s c => updateAckLevel s c.1 c.2) state

/-- The value persisted for a cluster in a possibly-absent ack-level map. -/
def ackOf (state : Option (List (String × Int))) (clusterName : String) :
    Option Int :=
  state.bind fun levels => lookupAck levels clusterName

/-- sqlQueue.GetAckLevels: a storage failure is returned to the caller as-is,
without wrapping. -/
def getAckLevels (readResult : Except DBErr (List (String × Int))) :
    Except QueueErr (List (String × Int)) :=
  match readResult with
  | .error e => .error (.raw (dbErrMsg e))
  | .ok levels => .ok levels

/-- The message of a queue error, as err.Error() renders it. -/
def queueErrMsg : QueueErr → String
  | .internalService msg => msg
  | .raw msg => msg

/-- The transaction body of sqlQueue.UpdateAckLevel, seen through its storage
outcomes: every failure of tx.GetAckLevels, tx.InsertAckLevel or
tx.UpdateAckLevels is wrapped into an InternalServiceError. -/
def updateAckLevelTx (messageID : Int) (clusterName : String)
    (getAckResult : Except DBErr (Option (List (String × Int))))
    (insertResult : Except DBErr Unit) (updateResult : Except DBErr Unit) :
    Except QueueErr Unit :=
  match getAckResult with
  | .error e =>
    .error (.internalService ("UpdateAckLevel operation failed. Error " ++ dbErrMsg e))
  | .ok none =>
    match insertResult with
    | .error e =>
      .error (.internalService ("UpdateAckLevel operation failed. Error " ++ dbErrMsg e))
    | .ok _ => .ok ()
  | .ok (some clusterAckLevels) =>
    if getAckD clusterAckLevels clusterName > messageID then
      .ok ()
    else
      match updateResult with
      | .error e =>
        .error (.internalService ("UpdateAckLevel operation failed. Error " ++ dbErrMsg e))
      | .ok _ => .ok ()

/-- The error surface of sqlQueue.UpdateAckLevel (the same source function as
updateAckLevel): the transaction error is wrapped once more on the way out. -/
def updateAckLevelOp (messageID : Int) (clusterName : String)
    (getAckResult : Except DBErr (Option (List (String × Int))))
    (insertResult : Except DBErr Unit) (updateResult : Except DBErr Unit) :
    Except QueueErr Unit :=
  match updateAckLevelTx messageID clusterName getAckResult insertResult updateResult with
  | .error e => .error (.internalService (queueErrMsg e))
  | .ok _ => .ok ()

/- ----------------------------------------------------------------------
The canonical workflow resetter (workflowResetterImpl).  The mutable state is
an external collaborator: it is modelled from the spec as a record carrying
the in-flight decision, the next event ID, the pending activities and the list
of events appended so far; AddDecisionTaskFailedEvent and
AddActivityTaskFailedEvent append the corresponding synthetic event.
---------------------------------------------------------------------- -/

/-- The in-flight decision of a mutable state. -/
structure DecisionInfo where
  scheduleID : Int
  startedID : Int
deriving Repr, DecidableEq

/-- A pending activity of a mutable state. -/
structure ActivityInfo where
  scheduleID : Int
  startedID : Int
  details : List Nat
  startedIdentity : String
deriving Repr, DecidableEq

/-- The synthetic events the resetter appends. -/
inductive HistoryEvent where
  | decisionTaskFailed (scheduleID startedID : Int) (cause : String)
      (resetReason baseRunID resetRunID : String) (forkEventVersion : Int)
  | activityTaskFailed (scheduleID startedID : Int) (reason : String)
      (details : List Nat) (identity : String)
deriving Repr, DecidableEq

/-- Modelled from the spec: the rebuilt mutable state, reduced to the fields
the resetter inspects and the event log it appends to. -/
structure MutableState where
  inFlightDecision : Option DecisionInfo
  nextEventID : Int
  pendingActivityInfos : List ActivityInfo
  events : List HistoryEvent
deriving Repr, DecidableEq

/-- Errors surfaced by the resetter steps. -/
inductive ResetError where
  | badRequest (msg : String)
  | internalService (msg : String)
deriving Repr, DecidableEq

/-- The decision gate of workflowResetterImpl.prepareResetWorkflow followed by
the AddDecisionTaskFailedEvent append: require an in-flight decision whose
started ID + 1 is the next event ID, else fail without touching the state. -/
def prepareResetDecisionGate (ms : MutableState) (baseRebuildLastEventID : Int)
    (resetReason baseRunID resetRunID : String) (baseLastEventVersion : Int) :
    MutableState × Except ResetError Unit :=
  match ms.inFlightDecision with
  | none =>
    (ms, .error (.badRequest
      ("Can only reset workflow to DecisionTaskStarted: " ++ toString baseRebuildLastEventID)))
  | some decision =>
    if decision.startedID + 1 != ms.nextEventID then
      (ms, .error (.badRequest
        ("Can only reset workflow to DecisionTaskStarted: " ++ toString baseRebuildLastEventID)))
    else
      ({ ms with events := ms.events ++
          [.decisionTaskFailed decision.scheduleID decision.startedID
            "ResetWorkflow" resetReason baseRunID resetRunID baseLastEventVersion] },
       .ok ())

/-- The ActivityTaskFailed event appended for one in-flight activity: reason =
terminateReason, details and identity copied from the activity info. -/
def activityFailedEvent (ai : ActivityInfo) (terminateReason : String) :
    HistoryEvent :=
  .activityTaskFailed ai.scheduleID ai.startedID terminateReason
    ai.details ai.startedIdentity

/-- The loop of workflowResetterImpl.failInflightActivity: skip activities that
never started, abort on a transient activity, and append an ActivityTaskFailed
event for every other one. -/
def failInflightActivityGo (terminateReason : String) :
    MutableState → List ActivityInfo → MutableState × Except ResetError Unit
  | ms, [] => (ms, .ok ())
  | ms, ai :: rest =>
    if ai.startedID = emptyEventID then
      failInflightActivityGo terminateReason ms rest
    else if ai.startedID = transientEventID then
      (ms, .error (.internalService "workflowResetter encounter transient activity"))
    else
      failInflightActivityGo terminateReason
        { ms with events := ms.events ++ [activityFailedEvent ai terminateReason] }
        rest

/-- workflowResetterImpl.failInflightActivity over the pending activities of
the rebuilt state. -/
def failInflightActivity (ms : MutableState) (terminateReason : String) :
    MutableState × Except ResetError Unit :=
  failInflightActivityGo terminateReason ms ms.pendingActivityInfos

/-- The ActivityTaskFailed events expected for the activities that have
started: one per pending activity whose started ID is not EmptyEventID. -/
def startedFailedEvents (ais : List ActivityInfo) (terminateReason : String) :
    List HistoryEvent :=
  (ais.filter fun ai => ai.startedID != emptyEventID).map
    fun ai => activityFailedEvent ai terminateReason

/- ----------------------------------------------------------------------
Helper lemmas.
---------------------------------------------------------------------- -/

theorem duplicate_ok_of_valid {item : VersionHistoryItem} (h : validItem item) :
    item.duplicate = .ok item := by
  obtain ⟨h1, h2⟩ := h
  unfold VersionHistoryItem.duplicate newVersionHistoryItem
  split
  · next hcond =>
      exfalso
      simp only [Bool.or_eq_true, decide_eq_true_eq, Bool.and_eq_true,
        bne_iff_ne, ne_eq, emptyVersion] at hcond
      simp only [emptyVersion] at h2
      omega
  · rfl

theorem duplicate_ok_inv {item x : VersionHistoryItem}
    (h : item.duplicate = .ok x) : x = item := by
  unfold VersionHistoryItem.duplicate newVersionHistoryItem at h
  split at h
  · exact absurd h (by simp)
  · injection h with h
    exact h.symm

theorem addOrUpdateItem_branchToken {v v' : VersionHistory}
    {item : VersionHistoryItem} (h : v.addOrUpdateItem item = .ok v') :
    v'.branchToken = v.branchToken := by
  unfold VersionHistory.addOrUpdateItem at h
  split at h
  · split at h
    · exact absurd h (by simp)
    · injection h with h; rw [← h]
  · split at h
    · exact absurd h (by simp)
    · split at h
      · exact absurd h (by simp)
      · split at h
        · split at h
          · exact absurd h (by simp)
          · injection h with h; rw [← h]
        · injection h with h; rw [← h]

/-- The loop of DuplicateUntilLCAItem preserves the accumulator's branch
token on success. -/
theorem duplicateUntilLCAItemGo_branchToken {lcaItem : VersionHistoryItem} :
    ∀ {items : List VersionHistoryItem} {acc res : VersionHistory},
    duplicateUntilLCAItemGo lcaItem acc items = .ok res →
    res.branchToken = acc.branchToken := by
  intro items
  induction items with
  | nil => intro acc res h; exact absurd h (by simp [duplicateUntilLCAItemGo])
  | cons item rest ih =>
    intro acc res h
    unfold duplicateUntilLCAItemGo at h
    split at h
    · split at h
      · exact absurd h (by simp)
      · next acc' heq =>
          rw [ih h]
          exact addOrUpdateItem_branchToken heq
    · split at h
      · split at h
        · exact absurd h (by simp)
        · exact addOrUpdateItem_branchToken h
      · exact absurd h (by simp)

/- ----------------------------------------------------------------------
Claim theorems.
---------------------------------------------------------------------- -/

/-- C10: whenever DuplicateUntilLCAItem succeeds, the returned history carries
an empty branch token, regardless of the branch token of the source history
(which, the embedding being pure, is itself left untouched). -/
theorem duplicateUntilLCAItem_empty_branchToken
    (v : VersionHistory) (lcaItem : VersionHistoryItem) (res : VersionHistory)
    (h : v.duplicateUntilLCAItem lcaItem = .ok res) :
    res.branchToken = [] :=
  duplicateUntilLCAItemGo_branchToken h

/-- C10 witness: a concrete history with a non-empty branch token whose
LCA-prefix duplicate succeeds and carries the empty token. -/
theorem duplicateUntilLCAItem_empty_branchToken_witness :
    VersionHistory.duplicateUntilLCAItem
        { branchToken := [7, 8], items := [{ eventID := 3, version := 0 }] }
        { eventID := 3, version := 0 } =
      .ok { branchToken := [], items := [{ eventID := 3, version := 0 }] } ∧
    ({ branchToken := [], items := [{ eventID := 3, version := 0 }] } :
        VersionHistory).branchToken = [] :=
  ⟨rfl, duplicateUntilLCAItem_empty_branchToken
    { branchToken := [7, 8], items := [{ eventID := 3, version := 0 }] }
    { eventID := 3, version := 0 } _ rfl⟩

/-- C4: the bounds guard of GetVersionHistory lets branchIndex = length of the
histories through (the source tests branchIndex strictly greater than the
length), after which the slice access is an out-of-range runtime panic rather
than the InvalidArgument the guard is meant to produce.  Evaluated at the
failing input: one branch, branchIndex = 1. -/
theorem getVersionHistory_off_by_one :
    (decide ((1 : Int) < 0) ||
      decide ((1 : Int) >
        (({ currentVersionHistoryIndex := 0,
            histories := [{ branchToken := [],
                            items := [{ eventID := 1, version := 0 }] }] } :
          VersionHistories).histories.length : Int))) = false ∧
    VersionHistories.getVersionHistory
      { currentVersionHistoryIndex := 0,
        histories := [{ branchToken := [],
                        items := [{ eventID := 1, version := 0 }] }] } 1 =
      .error (.panicked "runtime error: index out of range") :=
  ⟨rfl, rfl⟩

/-- C3: after the rebuild and version update, the canonical resetter proceeds
past the decision gate exactly when the rebuilt state has an in-flight
decision whose started ID + 1 equals the next event ID; otherwise it fails
with the InvalidArgument message and appends no DecisionTaskFailed event (the
state comes back untouched). -/
theorem prepareResetDecisionGate_spec (ms : MutableState)
    (baseRebuildLastEventID : Int)
    (resetReason baseRunID resetRunID : String) (baseLastEventVersion : Int) :
    ((∃ d, ms.inFlightDecision = some d ∧ d.startedID + 1 = ms.nextEventID) →
      ∃ d, ms.inFlightDecision = some d ∧
        prepareResetDecisionGate ms baseRebuildLastEventID resetReason
            baseRunID resetRunID baseLastEventVersion =
          ({ ms with events := ms.events ++
              [.decisionTaskFailed d.scheduleID d.startedID "ResetWorkflow"
                resetReason baseRunID resetRunID baseLastEventVersion] },
           .ok ())) ∧
    ((¬ ∃ d, ms.inFlightDecision = some d ∧ d.startedID + 1 = ms.nextEventID) →
      prepareResetDecisionGate ms baseRebuildLastEventID resetReason
          baseRunID resetRunID baseLastEventVersion =
        (ms, .error (.badRequest
          ("Can only reset workflow to DecisionTaskStarted: " ++
            toString baseRebuildLastEventID)))) := by
  constructor
  · rintro ⟨d, hd, hgate⟩
    refine ⟨d, hd, ?_⟩
    unfold prepareResetDecisionGate
    rw [hd]
    simp [hgate]
  · intro hno
    unfold prepareResetDecisionGate
    cases hd : ms.inFlightDecision with
    | none => rfl
    | some d =>
      have : d.startedID + 1 ≠ ms.nextEventID := by
        intro heq; exact hno ⟨d, hd, heq⟩
      simp [this]

/-- C3 witness: a rebuilt state whose in-flight decision started at event 3
with next event ID 4 passes the gate and gets the DecisionTaskFailed event. -/
theorem prepareResetDecisionGate_spec_witness :
    (∃ d, ({ inFlightDecision := some { scheduleID := 2, startedID := 3 },
             nextEventID := 4, pendingActivityInfos := [], events := [] } :
        MutableState).inFlightDecision = some d ∧ d.startedID + 1 =
        ({ inFlightDecision := some { scheduleID := 2, startedID := 3 },
           nextEventID := 4, pendingActivityInfos := [], events := [] } :
          MutableState).nextEventID) ∧
    (∃ d, ({ inFlightDecision := some { scheduleID := 2, startedID := 3 },
             nextEventID := 4, pendingActivityInfos := [], events := [] } :
        MutableState).inFlightDecision = some d ∧
      prepareResetDecisionGate
          { inFlightDecision := some { scheduleID := 2, startedID := 3 },
            nextEventID := 4, pendingActivityInfos := [], events := [] }
          10 "reset reason" "base-run" "reset-run" 5 =
        ({ inFlightDecision := some { scheduleID := 2, startedID := 3 },
           nextEventID := 4, pendingActivityInfos := [],
           events := [.decisionTaskFailed d.scheduleID d.startedID
             "ResetWorkflow" "reset reason" "base-run" "reset-run" 5] },
         .ok ())) :=
  ⟨⟨{ scheduleID := 2, startedID := 3 }, rfl, by decide⟩,
   (prepareResetDecisionGate_spec
      { inFlightDecision := some { scheduleID := 2, startedID := 3 },
        nextEventID := 4, pendingActivityInfos := [], events := [] }
      10 "reset reason" "base-run" "reset-run" 5).1
     ⟨{ scheduleID := 2, startedID := 3 }, rfl, by decide⟩⟩

/-- C8: failInflightActivity never fails when no pending activity is
transient, appending exactly one ActivityTaskFailed event (reason =
terminateReason, details and identity from the activity info) for each
activity that has started; when a transient activity is pending the whole
step aborts with an Internal error. -/
theorem failInflightActivity_spec (ms : MutableState) (terminateReason : String) :
    ((∀ ai ∈ ms.pendingActivityInfos, ai.startedID ≠ transientEventID) →
      failInflightActivity ms terminateReason =
        ({ ms with events := ms.events ++
            startedFailedEvents ms.pendingActivityInfos terminateReason },
         .ok ())) ∧
    ((∃ ai ∈ ms.pendingActivityInfos, ai.startedID = transientEventID) →
      (failInflightActivity ms terminateReason).2 =
        .error (.internalService "workflowResetter encounter transient activity")) := by
  have main : ∀ (ais : List ActivityInfo) (s : MutableState),
      ((∀ ai ∈ ais, ai.startedID ≠ transientEventID) →
        failInflightActivityGo terminateReason s ais =
          ({ s with events := s.events ++ startedFailedEvents ais terminateReason },
           .ok ())) ∧
      ((∃ ai ∈ ais, ai.startedID = transientEventID) →
        (failInflightActivityGo terminateReason s ais).2 =
          .error (.internalService "workflowResetter encounter transient activity")) := by
    intro ais
    induction ais with
    | nil =>
      intro s
      refine ⟨fun _ => ?_, fun hex => ?_⟩
      · simp [failInflightActivityGo, startedFailedEvents]
      · obtain ⟨ai, hmem, _⟩ := hex
        exact absurd hmem (by simp)
    | cons ai rest ih =>
      intro s
      constructor
      · intro hall
        have hai : ai.startedID ≠ transientEventID := hall ai (by simp)
        have hrest : ∀ a ∈ rest, a.startedID ≠ transientEventID :=
          fun a hm => hall a (by simp [hm])
        unfold failInflightActivityGo
        by_cases hz : ai.startedID = emptyEventID
        · rw [if_pos hz]
          rw [(ih s).1 hrest]
          simp [startedFailedEvents, List.filter_cons, hz]
        · rw [if_neg hz, if_neg hai]
          rw [(ih _).1 hrest]
          simp only [startedFailedEvents, List.filter_cons]
          have : (ai.startedID != emptyEventID) = true := by
            simp [bne_iff_ne, hz]
          simp [this, List.append_assoc]
      · intro hex
        unfold failInflightActivityGo
        obtain ⟨a, hmem, ha⟩ := hex
        rcases List.mem_cons.mp hmem with heq | hmemr
        · subst heq
          have hz : a.startedID ≠ emptyEventID := by
            rw [ha]; decide
          rw [if_neg hz, if_pos ha]
        · by_cases hz : ai.startedID = emptyEventID
          · rw [if_pos hz]
            exact (ih s).2 ⟨a, hmemr, ha⟩
          · by_cases ht : ai.startedID = transientEventID
            · rw [if_neg hz, if_pos ht]
            · rw [if_neg hz, if_neg ht]
              exact (ih _).2 ⟨a, hmemr, ha⟩
  exact main ms.pendingActivityInfos ms

/-- C8 witness: one never-started activity is skipped and one started activity
is failed with the terminate reason, details and identity preserved. -/
theorem failInflightActivity_spec_witness :
    (∀ ai ∈ ({ inFlightDecision := none, nextEventID := 7,
               pendingActivityInfos :=
                 [{ scheduleID := 4, startedID := 0, details := [1, 2],
                    startedIdentity := "worker-a" },
                  { scheduleID := 5, startedID := 6, details := [3],
                    startedIdentity := "worker-b" }],
               events := [] } : MutableState).pendingActivityInfos,
        ai.startedID ≠ transientEventID) ∧
    failInflightActivity
        { inFlightDecision := none, nextEventID := 7,
          pendingActivityInfos :=
            [{ scheduleID := 4, startedID := 0, details := [1, 2],
               startedIdentity := "worker-a" },
             { scheduleID := 5, startedID := 6, details := [3],
               startedIdentity := "worker-b" }],
          events := [] } "terminate reason" =
      ({ inFlightDecision := none, nextEventID := 7,
         pendingActivityInfos :=
           [{ scheduleID := 4, startedID := 0, details := [1, 2],
              startedIdentity := "worker-a" },
            { scheduleID := 5, startedID := 6, details := [3],
              startedIdentity := "worker-b" }],
         events := [.activityTaskFailed 5 6 "terminate reason" [3] "worker-b"] },
       .ok ()) :=
  ⟨by decide,
   (failInflightActivity_spec
      { inFlightDecision := none, nextEventID := 7,
        pendingActivityInfos :=
          [{ scheduleID := 4, startedID := 0, details := [1, 2],
             startedIdentity := "worker-a" },
           { scheduleID := 5, startedID := 6, details := [3],
             startedIdentity := "worker-b" }],
        events := [] } "terminate reason").1 (by decide)⟩

theorem lookupAck_setAck_self (levels : List (String × Int))
    (clusterName : String) (messageID : Int) :
    lookupAck (setAck levels clusterName messageID) clusterName = some messageID := by
  induction levels with
  | nil => simp [setAck, lookupAck]
  | cons p ps ih =>
    by_cases h : p.1 = clusterName
    · simp [setAck, lookupAck, h]
    · simp [setAck, lookupAck, h, ih]

theorem lookupAck_setAck_other (levels : List (String × Int))
    (clusterName other : String) (messageID : Int) (h : other ≠ clusterName) :
    lookupAck (setAck levels clusterName messageID) other =
      lookupAck levels other := by
  have h' : clusterName ≠ other := Ne.symm h
  induction levels with
  | nil => simp [setAck, lookupAck, h']
  | cons p ps ih =>
    by_cases hp : p.1 = clusterName
    · simp [setAck, lookupAck, hp, h']
    · simp [setAck, lookupAck, hp, ih]

/-- One UpdateAckLevel transition never decreases a stored ack level. -/
theorem updateAckLevel_mono (state : Option (List (String × Int)))
    (messageID : Int) (clusterName other : String) (x : Int)
    (hx : ackOf state other = some x) :
    ∃ y, ackOf (updateAckLevel state messageID clusterName) other = some y ∧
      x ≤ y := by
  cases state with
  | none => simp [ackOf] at hx
  | some levels =>
    simp only [ackOf, Option.some_bind] at hx
    by_cases hign : getAckD levels clusterName > messageID
    · refine ⟨x, ?_, le_refl x⟩
      simp [updateAckLevel, ackOf, hign, hx]
    · by_cases hsame : other = clusterName
      · subst hsame
        refine ⟨messageID, ?_, ?_⟩
        · simp [updateAckLevel, ackOf, hign, lookupAck_setAck_self]
        · have hgx : getAckD levels other = x := by
            simp [getAckD, hx]
          omega
      · refine ⟨x, ?_, le_refl x⟩
        simp [updateAckLevel, ackOf, hign,
          lookupAck_setAck_other levels clusterName other messageID hsame, hx]

/-- C7: the UpdateAckLevel state transition inserts a fresh one-entry map when
no ack levels exist, ignores a message ID strictly below the cluster's stored
level, otherwise writes the cluster's entry; and across any sequence of
successful calls the persisted level of every cluster never decreases. -/
theorem updateAckLevel_spec (state : Option (List (String × Int)))
    (messageID : Int) (clusterName : String) :
    (state = none →
      updateAckLevel state messageID clusterName =
        some [(clusterName, messageID)]) ∧
    (∀ levels, state = some levels → getAckD levels clusterName > messageID →
      updateAckLevel state messageID clusterName = some levels) ∧
    (∀ levels, state = some levels → ¬ getAckD levels clusterName > messageID →
      updateAckLevel state messageID clusterName =
        some (setAck levels clusterName messageID)) ∧
    (∀ calls other x, ackOf state other = some x →
      ∃ y, ackOf (applyAckCalls (updateAckLevel state messageID clusterName) calls)
          other = some y ∧ x ≤ y) := by
  refine ⟨fun h => by rw [h]; rfl, fun levels h hgt => ?_, fun levels h hle => ?_, ?_⟩
  · rw [h]; simp [updateAckLevel, hgt]
  · rw [h]; simp [updateAckLevel, hle]
  · have fold_mono : ∀ (calls : List (Int × String))
        (s : Option (List (String × Int))) (other : String) (x : Int),
        ackOf s other = some x →
        ∃ y, ackOf (applyAckCalls s calls) other = some y ∧ x ≤ y := by
      intro calls
      induction calls with
      | nil => intro s other x hx; exact ⟨x, hx, le_refl x⟩
      | cons c rest ih =>
        intro s other x hx
        obtain ⟨y, hy, hxy⟩ := updateAckLevel_mono s c.1 c.2 other x hx
        obtain ⟨z, hz, hyz⟩ := ih (updateAckLevel s c.1 c.2) other y hy
        exact ⟨z, hz, le_trans hxy hyz⟩
    intro calls other x hx
    obtain ⟨y, hy, hxy⟩ := updateAckLevel_mono state messageID clusterName other x hx
    obtain ⟨z, hz, hyz⟩ := fold_mono calls _ other y hy
    exact ⟨z, hz, le_trans hxy hyz⟩

/-- C7 witness: a stored level 5 for cluster-a survives a late call with
message ID 3 and rises through a later call with message ID 9. -/
theorem updateAckLevel_spec_witness :
    ackOf (some [("cluster-a", 5)]) "cluster-a" = some 5 ∧
    (∃ y, ackOf (applyAckCalls
        (updateAckLevel (some [("cluster-a", 5)]) 3 "cluster-a")
        [(9, "cluster-a")]) "cluster-a" = some y ∧ 5 ≤ y) :=
  ⟨rfl, (updateAckLevel_spec (some [("cluster-a", 5)]) 3 "cluster-a").2.2.2
    [(9, "cluster-a")] "cluster-a" 5 rfl⟩

/-- C9 counterexample: a storage failure inside ReadMessages is handed back to
the caller unwrapped, not as an InternalServiceError as the claim states. -/
theorem readMessages_raw_error :
    readMessages (.error (.failure "db down")) = .error (.raw "db down") ∧
    (QueueErr.raw "db down").isInternal = false :=
  ⟨rfl, rfl⟩

/-- C9 amended: EnqueueMessage, DeleteMessagesBefore and UpdateAckLevel wrap
every storage failure into an InternalServiceError, while ReadMessages and
GetAckLevels return the raw storage error unwrapped. -/
theorem queue_error_surface :
    (∀ (payload : List Nat) (getLast : Except DBErr Int)
        (insert : QueueRow → Except DBErr Unit) (e : QueueErr),
      enqueueMessage payload getLast insert = .error e → e.isInternal = true) ∧
    (∀ (res : Except DBErr Int) (e : QueueErr),
      deleteMessagesBefore res = .error e → e.isInternal = true) ∧
    (∀ (messageID : Int) (clusterName : String)
        (getAck : Except DBErr (Option (List (String × Int))))
        (ins upd : Except DBErr Unit) (e : QueueErr),
      updateAckLevelOp messageID clusterName getAck ins upd = .error e →
        e.isInternal = true) ∧
    (∀ (dbe : DBErr),
      readMessages (.error dbe) = .error (.raw (dbErrMsg dbe))) ∧
    (∀ (dbe : DBErr),
      getAckLevels (.error dbe) = .error (.raw (dbErrMsg dbe))) := by
  refine ⟨?_, ?_, ?_, fun _ => rfl, fun _ => rfl⟩
  · intro payload getLast insert e h
    unfold enqueueMessage at h
    split at h
    · injection h with h
      rw [← h]
      rfl
    · exact absurd h (by simp)
  · intro res e h
    unfold deleteMessagesBefore at h
    split at h
    · injection h with h
      rw [← h]
      rfl
    · exact absurd h (by simp)
  · intro messageID clusterName getAck ins upd e h
    unfold updateAckLevelOp at h
    split at h
    · injection h with h
      rw [← h]
      rfl
    · exact absurd h (by simp)

/-- C9 amended witness: a concrete failing storage read inside EnqueueMessage
surfaces as an InternalServiceError. -/
theorem queue_error_surface_witness :
    (QueueErr.internalService
      "failed to get last enqueued message id: disk error").isInternal = true :=
  queue_error_surface.1 [] (.error (.failure "disk error")) (fun _ => .ok ())
    (.internalService "failed to get last enqueued message id: disk error") rfl

/-- The pairwise relation behind itemsIncreasing. -/
theorem pairwise_last_rel {R : VersionHistoryItem → VersionHistoryItem → Prop}
    {l ys : List VersionHistoryItem} {last : VersionHistoryItem}
    (hp : l.Pairwise R) (hys : l = ys ++ [last]) : ∀ a ∈ ys, R a last := by
  subst hys
  rcases List.pairwise_append.mp hp with ⟨_, _, hrel⟩
  exact fun a ha => hrel a ha last (by simp)

/-- C1: the full case analysis of AddOrUpdateItem for a validated item over a
history with strictly increasing items: empty histories take the item as their
single element, a lower version or a non-advancing event ID is rejected with
InvalidArgument, a strictly larger version appends the item, an equal version
with a larger event ID only raises the last item's event ID, and every
successful outcome keeps the items strictly increasing in both coordinates. -/
theorem addOrUpdateItem_spec (v : VersionHistory) (item : VersionHistoryItem)
    (hvalid : validItem item) (hinc : itemsIncreasing v.items) :
    (v.items = [] → v.addOrUpdateItem item = .ok { v with items := [item] }) ∧
    (∀ lastItem, v.items.getLast? = some lastItem →
      ((item.version < lastItem.version ∨ item.eventID ≤ lastItem.eventID →
        ∃ msg, v.addOrUpdateItem item = .error (.badRequest msg)) ∧
       (lastItem.version < item.version → lastItem.eventID < item.eventID →
        v.addOrUpdateItem item = .ok { v with items := v.items ++ [item] }) ∧
       (item.version = lastItem.version → lastItem.eventID < item.eventID →
        v.addOrUpdateItem item = .ok { v with items :=
          v.items.dropLast ++ [{ lastItem with eventID := item.eventID }] }))) ∧
    (∀ v', v.addOrUpdateItem item = .ok v' → itemsIncreasing v'.items) := by
  refine ⟨?_, ?_, ?_⟩
  · intro hempty
    have hnone : v.items.getLast? = none := by simp [hempty]
    simp [VersionHistory.addOrUpdateItem, hnone, duplicate_ok_of_valid hvalid]
  · intro lastItem hlast
    refine ⟨?_, ?_, ?_⟩
    · intro hbad
      simp only [VersionHistory.addOrUpdateItem, hlast]
      rcases hbad with hbad | hbad
      · rw [if_pos hbad]
        exact ⟨_, rfl⟩
      · by_cases hver : item.version < lastItem.version
        · rw [if_pos hver]
          exact ⟨_, rfl⟩
        · rw [if_neg hver, if_pos hbad]
          exact ⟨_, rfl⟩
    · intro hver hev
      simp only [VersionHistory.addOrUpdateItem, hlast]
      rw [if_neg (by omega), if_neg (by omega), if_pos hver,
        duplicate_ok_of_valid hvalid]
    · intro hver hev
      simp only [VersionHistory.addOrUpdateItem, hlast]
      rw [if_neg (by omega), if_neg (by omega), if_neg (by omega)]
  · intro v' hok
    unfold VersionHistory.addOrUpdateItem at hok
    split at hok
    · next hnone =>
        split at hok
        · exact absurd hok (by simp)
        · next d hdup =>
            injection hok with hok
            rw [← hok]
            have hempty : v.items = [] := by
              simpa using hnone
            rw [duplicate_ok_inv hdup]
            simp [itemsIncreasing]
    · next lastItem hlast =>
        obtain ⟨ys, hys⟩ := List.getLast?_eq_some_iff.mp hlast
        split at hok
        · exact absurd hok (by simp)
        · split at hok
          · exact absurd hok (by simp)
          · split at hok
            · next hgt =>
                split at hok
                · exact absurd hok (by simp)
                · next d hdup =>
                    injection hok with hok
                    rw [← hok]
                    rw [duplicate_ok_inv hdup]
                    next hnlt hnle =>
                      have hev : lastItem.eventID < item.eventID := by omega
                      unfold itemsIncreasing at hinc ⊢
                      simp only []
                      rw [List.pairwise_append]
                      refine ⟨hinc, by simp, ?_⟩
                      intro a ha b hb
                      rw [List.mem_singleton] at hb
                      subst hb
                      rcases (by rw [hys] at ha; simpa using ha :
                          a ∈ ys ∨ a = lastItem) with hmem | heq
                      · have := pairwise_last_rel hinc hys a hmem
                        exact ⟨by omega, by omega⟩
                      · subst heq
                        exact ⟨hev, hgt⟩
            · next hngt =>
                injection hok with hok
                rw [← hok]
                next hnlt hnle =>
                  have hveq : item.version = lastItem.version := by omega
                  have hev : lastItem.eventID < item.eventID := by omega
                  unfold itemsIncreasing at hinc ⊢
                  simp only []
                  rw [List.pairwise_append]
                  have hdrop : v.items.dropLast = ys := by
                    rw [hys]; simp
                  rw [hdrop]
                  refine ⟨?_, by simp, ?_⟩
                  · rw [hys] at hinc
                    exact (List.pairwise_append.mp hinc).1
                  · intro a ha b hb
                    rw [List.mem_singleton] at hb
                    subst hb
                    have := pairwise_last_rel hinc hys a ha
                    exact ⟨by simp; omega, by simp; omega⟩

/-- C1 witness: onto the history with single item (eventID 5, version 0), the
item (eventID 7, version 1) is validated, appended, and the result stays
strictly increasing. -/
theorem addOrUpdateItem_spec_witness :
    validItem { eventID := 7, version := 1 } ∧
    itemsIncreasing [{ eventID := 5, version := 0 }] ∧
    VersionHistory.addOrUpdateItem
        { branchToken := [], items := [{ eventID := 5, version := 0 }] }
        { eventID := 7, version := 1 } =
      .ok { branchToken := [],
            items := [{ eventID := 5, version := 0 },
                      { eventID := 7, version := 1 }] } :=
  ⟨by decide, by decide,
   ((addOrUpdateItem_spec
      { branchToken := [], items := [{ eventID := 5, version := 0 }] }
      { eventID := 7, version := 1 } (by decide) (by decide)).2.1
      { eventID := 5, version := 0 } rfl).2.1 (by decide) (by decide)⟩

/-- The two-pointer LCA descent is symmetric in its two histories. -/
theorem findLCARev_comm : ∀ ls rs : List VersionHistoryItem,
    findLCARev ls rs = findLCARev rs ls := by
  intro ls
  induction ls with
  | nil =>
    intro rs
    cases rs with
    | nil => rfl
    | cons r rs' => simp [findLCARev]
  | cons l ls' ihl =>
    intro rs
    induction rs with
    | nil => simp [findLCARev]
    | cons r rs' ihr =>
      by_cases hv : l.version = r.version
      · by_cases he : l.eventID = r.eventID
        · have hlr : l = r := by
            cases l; cases r; simp_all
          subst hlr
          simp [findLCARev]
        · rcases lt_or_gt_of_ne he with hlt | hgt
          · have h1 : ¬ l.eventID > r.eventID := by omega
            have h2 : r.eventID > l.eventID := hlt
            simp [findLCARev, hv, h1, h2]
          · have h2 : ¬ r.eventID > l.eventID := by omega
            simp [findLCARev, hv, hgt, h2]
      · rcases lt_or_gt_of_ne hv with hlt | hgt
        · have h1 : ¬ l.version > r.version := by omega
          have hne : ¬ r.version = l.version := by omega
          simp only [findLCARev]
          simp only [hv, hne, beq_iff_eq, if_false, decide_eq_true_eq,
            h1, if_neg, hlt, if_pos]
          simpa using ihr
        · have hne : ¬ r.version = l.version := by omega
          have h2 : ¬ r.version > l.version := by omega
          simp only [findLCARev]
          simp only [hv, hne, beq_iff_eq, if_false, decide_eq_true_eq,
            hgt, if_pos, h2, if_neg]
          simpa using ihl (r :: rs')

/-- A successful LCA descent returns an item of one of the two lists. -/
theorem findLCARev_ok_mem : ∀ (ls rs : List VersionHistoryItem)
    (x : VersionHistoryItem),
    findLCARev ls rs = .ok x → x ∈ ls ∨ x ∈ rs := by
  intro ls
  induction ls with
  | nil =>
    intro rs x h
    cases rs <;> simp [findLCARev] at h
  | cons l ls' ihl =>
    intro rs
    induction rs with
    | nil => intro x h; simp [findLCARev] at h
    | cons r rs' ihr =>
      intro x h
      by_cases hv : l.version = r.version
      · by_cases he : l.eventID > r.eventID
        · have hdup : r.duplicate = .ok x := by
            simpa [findLCARev, hv, he] using h
          right
          rw [duplicate_ok_inv hdup]
          simp
        · have hdup : l.duplicate = .ok x := by
            simpa [findLCARev, hv, he] using h
          left
          rw [duplicate_ok_inv hdup]
          simp
      · rcases lt_or_gt_of_ne hv with hlt | hgt
        · have h1 : ¬ l.version > r.version := by omega
          have hrec : findLCARev (l :: ls') rs' = .ok x := by
            simpa [findLCARev, hv, h1] using h
          rcases ihr x hrec with hm | hm
          · exact Or.inl hm
          · exact Or.inr (List.mem_cons_of_mem r hm)
        · have hrec : findLCARev ls' (r :: rs') = .ok x := by
            simpa [findLCARev, hv, hgt] using h
          rcases ihl (r :: rs') x hrec with hm | hm
          · exact Or.inl (List.mem_cons_of_mem l hm)
          · exact Or.inr hm

/-- A probe that is itself one of the items of a strictly increasing history
is reported contained, provided the running window bound sits below it (or the
probe carries the before-first sentinel event ID 0). -/
theorem containsItemAux_of_mem :
    ∀ (items : List VersionHistoryItem) (prev : Int) (x : VersionHistoryItem),
    itemsIncreasing items → x ∈ items → (prev < x.eventID ∨ x.eventID = 0) →
    containsItemAux x prev items = true := by
  intro items
  induction items with
  | nil =>
    intro prev x _ hmem _
    exact absurd hmem (by simp)
  | cons cur rest ih =>
    intro prev x hinc hmem hprev
    rcases List.mem_cons.mp hmem with heq | hmem'
    · subst heq
      by_cases hz : x.eventID = 0
      · simp [containsItemAux, firstEventID, hz]
      · have hlt : prev < x.eventID := by
          rcases hprev with h | h
          · exact h
          · exact absurd h hz
        simp [containsItemAux, firstEventID, hz, hlt]
    · have hrel := (List.pairwise_cons.mp hinc).1 x hmem'
      have h1 : ¬ x.version = cur.version := by omega
      have h2 : ¬ x.version < cur.version := by omega
      have := ih cur.eventID x (List.pairwise_cons.mp hinc).2 hmem'
        (Or.inl hrel.1)
      simpa [containsItemAux, h1, h2] using this

/-- Any item of a valid history satisfies ContainsItem. -/
theorem containsItem_of_mem (v : VersionHistory) (hv : validHistory v)
    (x : VersionHistoryItem) (hx : x ∈ v.items) :
    v.containsItem x = true := by
  unfold VersionHistory.containsItem
  apply containsItemAux_of_mem v.items (firstEventID - 1) x hv.1 hx
  have h0 : 0 ≤ x.eventID := (hv.2 x hx).1
  simp only [firstEventID]
  omega

/-- The first history of the C2 scenario: items (eventID 5, version 1) and
(eventID 10, version 5), empty branch token. -/
def historyA : VersionHistory :=
  { branchToken := [],
    items := [{ eventID := 5, version := 1 }, { eventID := 10, version := 5 }] }

/-- The second history of the C2 scenario: items (eventID 2, version 3) and
(eventID 3, version 5), empty branch token. -/
def historyB : VersionHistory :=
  { branchToken := [],
    items := [{ eventID := 2, version := 3 }, { eventID := 3, version := 5 }] }

/-- C2 counterexample: two valid non-empty histories whose LCA succeeds with
an item that ContainsItem rejects in the first history: the claim that the
returned item is contained in both inputs fails. -/
theorem findLCAItem_not_contained_in_both :
    validHistory historyA ∧ validHistory historyB ∧
    historyA.findLCAItem historyB = .ok { eventID := 3, version := 5 } ∧
    historyA.containsItem { eventID := 3, version := 5 } = false := by
  refine ⟨by decide, by decide, ?_, by decide⟩
  show findLCARev
      [{ eventID := 10, version := 5 }, { eventID := 5, version := 1 }]
      [{ eventID := 3, version := 5 }, { eventID := 2, version := 3 }] =
    .ok { eventID := 3, version := 5 }
  simp [findLCARev, VersionHistoryItem.duplicate, newVersionHistoryItem]

/-- C2 amended: FindLCAItem is symmetric for every pair of histories, and for
valid histories a successful LCA item is an item of one of the two inputs and
is contained (ContainsItem) in at least one of them — containment in both does
not hold in general. -/
theorem findLCAItem_comm_contained (a b : VersionHistory)
    (ha : validHistory a) (hb : validHistory b) :
    a.findLCAItem b = b.findLCAItem a ∧
    ∀ item, a.findLCAItem b = .ok item →
      a.containsItem item = true ∨ b.containsItem item = true := by
  constructor
  · exact findLCARev_comm a.items.reverse b.items.reverse
  · intro item hok
    rcases findLCARev_ok_mem a.items.reverse b.items.reverse item hok with hm | hm
    · exact Or.inl (containsItem_of_mem a ha item (List.mem_reverse.mp hm))
    · exact Or.inr (containsItem_of_mem b hb item (List.mem_reverse.mp hm))

/-- C2 amended witness: on the two concrete valid histories above, the LCA is
symmetric and its item is contained in at least one of them. -/
theorem findLCAItem_comm_contained_witness :
    validHistory historyA ∧ validHistory historyB ∧
    (historyA.findLCAItem historyB = historyB.findLCAItem historyA ∧
     ∀ item, historyA.findLCAItem historyB = .ok item →
       historyA.containsItem item = true ∨ historyB.containsItem item = true) :=
  ⟨by decide, by decide,
   findLCAItem_comm_contained historyA historyB (by decide) (by decide)⟩

/-- Rebuilding a strictly increasing list of valid items through
AddOrUpdateItem appends every item: each one carries a version strictly above
the accumulator's last. -/
theorem addAllItems_ok : ∀ (its : List VersionHistoryItem) (acc : VersionHistory),
    itemsIncreasing (acc.items ++ its) → (∀ x ∈ its, validItem x) →
    addAllItems acc its = .ok { acc with items := acc.items ++ its } := by
  intro its
  induction its with
  | nil =>
    intro acc _ _
    simp [addAllItems]
  | cons x rest ih =>
    intro acc hinc hval
    have hvx : validItem x := hval x (by simp)
    have hstep : acc.addOrUpdateItem x = .ok { acc with items := acc.items ++ [x] } := by
      cases hlast : acc.items.getLast? with
      | none =>
        have hempty : acc.items = [] := by simpa using hlast
        simp [VersionHistory.addOrUpdateItem, hlast, duplicate_ok_of_valid hvx, hempty]
      | some lastItem =>
        obtain ⟨ys, hys⟩ := List.getLast?_eq_some_iff.mp hlast
        have hrel : lastItem.eventID < x.eventID ∧ lastItem.version < x.version := by
          unfold itemsIncreasing at hinc
          rw [hys, List.append_assoc] at hinc
          have h2 := (List.pairwise_append.mp hinc).2.1
          simp only [List.singleton_append, List.pairwise_cons] at h2
          exact h2.1 x (by simp)
        simp only [VersionHistory.addOrUpdateItem, hlast]
        rw [if_neg (by omega), if_neg (by omega), if_pos (by omega),
          duplicate_ok_of_valid hvx]
    unfold addAllItems
    simp only [duplicate_ok_of_valid hvx, hstep]
    have hinc' : itemsIncreasing ((acc.items ++ [x]) ++ rest) := by
      rw [List.append_assoc]
      exact hinc
    rw [ih { acc with items := acc.items ++ [x] } hinc'
      (fun y hy => hval y (by simp [hy]))]
    simp

/-- A valid history survives NewVersionHistory unchanged. -/
theorem newVersionHistory_ok {v : VersionHistory} (hv : validHistory v) :
    newVersionHistory v.branchToken v.items = .ok v := by
  unfold newVersionHistory
  rw [addAllItems_ok v.items { branchToken := v.branchToken, items := [] }
    (by simpa using hv.1) hv.2]
  simp

/-- Duplicate of a valid history is the identity. -/
theorem duplicate_history_ok {v : VersionHistory} (hv : validHistory v) :
    v.duplicate = .ok v :=
  newVersionHistory_ok hv

theorem getFirstItem_ok {v : VersionHistory} {x : VersionHistoryItem}
    (h : v.items.head? = some x) (hval : validItem x) :
    v.getFirstItem = .ok x := by
  cases hv : v.items with
  | nil => rw [hv] at h; exact absurd h (by simp)
  | cons y ys =>
    rw [hv] at h
    simp only [List.head?_cons, Option.some.injEq] at h
    subst h
    simp [VersionHistory.getFirstItem, hv, duplicate_ok_of_valid hval]

theorem getLastItem_ok {v : VersionHistory} {x : VersionHistoryItem}
    (h : v.items.getLast? = some x) (hval : validItem x) :
    v.getLastItem = .ok x := by
  simp [VersionHistory.getLastItem, h, duplicate_ok_of_valid hval]

theorem getVersionHistory_in_range {h : VersionHistories} {idx : Int}
    {curH : VersionHistory} (h0 : 0 ≤ idx)
    (hlt : idx < h.histories.length)
    (hget : h.histories.get? idx.toNat = some curH) :
    h.getVersionHistory idx = .ok curH := by
  unfold VersionHistories.getVersionHistory
  rw [if_neg (by simp; omega)]
  rw [hget]

/-- C6 counterexample: a collection whose single branch starts at item
(eventID 5, version 0) accepts an incoming history starting at the different
item (eventID 3, version 0): only the versions are compared, so the add
succeeds where the claim demands InvalidArgument. -/
theorem addVersionHistory_version_only_check :
    VersionHistoryItem.equals { eventID := 3, version := 0 }
      { eventID := 5, version := 0 } = false ∧
    VersionHistories.addVersionHistory
        { currentVersionHistoryIndex := 0,
          histories := [{ branchToken := [],
                          items := [{ eventID := 5, version := 0 }] }] }
        (some { branchToken := [],
                items := [{ eventID := 3, version := 0 },
                          { eventID := 6, version := 1 }] }) =
      .ok (true, 1,
        { currentVersionHistoryIndex := 1,
          histories := [{ branchToken := [],
                          items := [{ eventID := 5, version := 0 }] },
                        { branchToken := [],
                          items := [{ eventID := 3, version := 0 },
                                    { eventID := 6, version := 1 }] }] }) :=
  ⟨rfl, rfl⟩

/-- The success case of AddVersionHistory, spelt out: matching first-item
versions append the duplicate and switch the current branch exactly when the
incoming last-item version is strictly larger. -/
theorem addVersionHistory_ok {h : VersionHistories} {v curH : VersionHistory}
    {vFirst curFirst vLast curLast : VersionHistoryItem}
    (h0 : 0 ≤ h.currentVersionHistoryIndex)
    (hlen : h.currentVersionHistoryIndex < h.histories.length)
    (hcurvalid : validHistory curH) (hv : validHistory v)
    (hvf : v.items.head? = some vFirst)
    (hcur : h.histories.get? h.currentVersionHistoryIndex.toNat = some curH)
    (hcf : curH.items.head? = some curFirst)
    (hvl : v.items.getLast? = some vLast)
    (hcl : curH.items.getLast? = some curLast)
    (heq : vFirst.version = curFirst.version) :
    h.addVersionHistory (some v) =
      .ok (decide (curLast.version < vLast.version),
        (h.histories.length : Int),
        { currentVersionHistoryIndex :=
            if curLast.version < vLast.version then (h.histories.length : Int)
            else h.currentVersionHistoryIndex,
          histories := h.histories ++ [v] }) := by
  have hvfvalid : validItem vFirst := by
    apply hv.2
    cases hitems : v.items with
    | nil => rw [hitems] at hvf; exact absurd hvf (by simp)
    | cons y ys =>
      rw [hitems] at hvf
      simp only [List.head?_cons, Option.some.injEq] at hvf
      simp [hvf]
  have hcfvalid : validItem curFirst := by
    apply hcurvalid.2
    cases hitems : curH.items with
    | nil => rw [hitems] at hcf; exact absurd hcf (by simp)
    | cons y ys =>
      rw [hitems] at hcf
      simp only [List.head?_cons, Option.some.injEq] at hcf
      simp [hcf]
  have hvlvalid : validItem vLast := by
    apply hv.2
    obtain ⟨ys, hys⟩ := List.getLast?_eq_some_iff.mp hvl
    simp [hys]
  have hclvalid : validItem curLast := by
    apply hcurvalid.2
    obtain ⟨ys, hys⟩ := List.getLast?_eq_some_iff.mp hcl
    simp [hys]
  simp only [VersionHistories.addVersionHistory, getFirstItem_ok hvf hvfvalid,
    getVersionHistory_in_range h0 hlen hcur, getFirstItem_ok hcf hcfvalid]
  rw [if_neg (by simpa using heq), duplicate_history_ok hv]
  simp only [getLastItem_ok hvl hvlvalid, getLastItem_ok hcl hclvalid]
  by_cases hgt : curLast.version < vLast.version
  · rw [if_pos (by exact hgt), if_pos hgt]
    simp [hgt]
  · rw [if_neg (by exact hgt), if_neg hgt]
    simp [hgt]

/-- C6 amended: AddVersionHistory on a valid collection rejects a null input
with InvalidArgument, rejects an incoming history whose first-item version
differs from the current branch's first-item version (the event IDs are not
compared), and otherwise appends the duplicate at newIndex = old length,
switching the current index to newIndex and reporting
currentBranchChanged = true exactly when the incoming last-item version
strictly exceeds the current branch's last-item version, everything else
unchanged. -/
theorem addVersionHistory_spec (h : VersionHistories)
    (hval : validHistories h) :
    (h.addVersionHistory none =
      .error (.badRequest "version histories is null.")) ∧
    (∀ v, validHistory v → ∀ vFirst curH curFirst vLast curLast,
      v.items.head? = some vFirst →
      h.histories.get? h.currentVersionHistoryIndex.toNat = some curH →
      curH.items.head? = some curFirst →
      v.items.getLast? = some vLast →
      curH.items.getLast? = some curLast →
      ((¬ vFirst.version = curFirst.version →
        h.addVersionHistory (some v) =
          .error (.badRequest "version history first item does not match.")) ∧
       (vFirst.version = curFirst.version →
        h.addVersionHistory (some v) =
          .ok (decide (curLast.version < vLast.version),
            (h.histories.length : Int),
            { currentVersionHistoryIndex :=
                if curLast.version < vLast.version then
                  (h.histories.length : Int)
                else h.currentVersionHistoryIndex,
              histories := h.histories ++ [v] })))) := by
  obtain ⟨hall, h0, hlen, _⟩ := hval
  constructor
  · rfl
  · intro v hv vFirst curH curFirst vLast curLast hvf hcur hcf hvl hcl
    have hvfvalid : validItem vFirst := by
      apply hv.2
      cases hitems : v.items with
      | nil => rw [hitems] at hvf; exact absurd hvf (by simp)
      | cons y ys =>
        rw [hitems] at hvf
        simp only [List.head?_cons, Option.some.injEq] at hvf
        simp [hvf]
    have hcurmem : curH ∈ h.histories := List.get?_mem hcur
    have hcvalid : validHistory curH := (hall curH hcurmem).1
    have hcfvalid : validItem curFirst := by
      apply hcvalid.2
      cases hitems : curH.items with
      | nil => rw [hitems] at hcf; exact absurd hcf (by simp)
      | cons y ys =>
        rw [hitems] at hcf
        simp only [List.head?_cons, Option.some.injEq] at hcf
        simp [hcf]
    have hvlvalid : validItem vLast := by
      apply hv.2
      obtain ⟨ys, hys⟩ := List.getLast?_eq_some_iff.mp hvl
      simp [hys]
    have hclvalid : validItem curLast := by
      apply hcvalid.2
      obtain ⟨ys, hys⟩ := List.getLast?_eq_some_iff.mp hcl
      simp [hys]
    have hfirst := getFirstItem_ok hvf hvfvalid
    have hcurblock := getVersionHistory_in_range h0 hlen hcur
    have hcfirst := getFirstItem_ok hcf hcfvalid
    constructor
    · intro hne
      simp only [VersionHistories.addVersionHistory, hfirst, hcurblock, hcfirst]
      rw [if_pos (by simpa using hne)]
    · intro heq
      exact addVersionHistory_ok h0 hlen hcvalid hv hvf hcur hcf hvl hcl heq

/-- C6 amended witness: a valid single-branch collection accepts a matching
two-item history, appends it at index 1 and switches the current branch. -/
theorem addVersionHistory_spec_witness :
    validHistories
      { currentVersionHistoryIndex := 0,
        histories := [{ branchToken := [],
                        items := [{ eventID := 1, version := 0 }] }] } ∧
    VersionHistories.addVersionHistory
        { currentVersionHistoryIndex := 0,
          histories := [{ branchToken := [],
                          items := [{ eventID := 1, version := 0 }] }] }
        (some { branchToken := [],
                items := [{ eventID := 1, version := 0 },
                          { eventID := 5, version := 3 }] }) =
      .ok (true, 1,
        { currentVersionHistoryIndex := 1,
          histories := [{ branchToken := [],
                          items := [{ eventID := 1, version := 0 }] },
                        { branchToken := [],
                          items := [{ eventID := 1, version := 0 },
                                    { eventID := 5, version := 3 }] }] }) := by
  constructor
  · constructor
    · intro v hv
      simp only [List.mem_singleton] at hv
      subst hv
      exact ⟨by decide, by decide⟩
    · exact ⟨by decide, by decide, ⟨{ eventID := 1, version := 0 }, by decide⟩⟩
  · exact ((addVersionHistory_spec
      { currentVersionHistoryIndex := 0,
        histories := [{ branchToken := [],
                        items := [{ eventID := 1, version := 0 }] }] }
      ⟨by decide, by decide, by decide,
        ⟨{ eventID := 1, version := 0 }, by decide⟩⟩).2
      { branchToken := [],
        items := [{ eventID := 1, version := 0 },
                  { eventID := 5, version := 3 }] }
      (by decide) { eventID := 1, version := 0 }
      { branchToken := [], items := [{ eventID := 1, version := 0 }] }
      { eventID := 1, version := 0 } { eventID := 5, version := 3 }
      { eventID := 1, version := 0 } rfl rfl rfl rfl rfl).2 rfl

/-- Converting valid items to the wire form and back is the identity. -/
theorem itemsFromThrift_map {its : List VersionHistoryItem}
    (hval : ∀ x ∈ its, validItem x) :
    itemsFromThrift (its.map VersionHistoryItem.toThrift) = .ok its := by
  induction its with
  | nil => rfl
  | cons x rest ih =>
    have hvx : validItem x := hval x (by simp)
    have hx : newVersionHistoryItemFromThrift x.toThrift = .ok x :=
      duplicate_ok_of_valid hvx
    simp only [List.map_cons, itemsFromThrift, hx,
      ih (fun y hy => hval y (by simp [hy]))]

/-- A valid history survives the wire round trip unchanged. -/
theorem roundtripVH {v : VersionHistory} (hv : validHistory v) :
    newVersionHistoryFromThrift v.toThrift = .ok v := by
  unfold newVersionHistoryFromThrift VersionHistory.toThrift
  simp only [itemsFromThrift_map hv.2]
  exact newVersionHistory_ok hv

theorem getLast?_exists {l : List VersionHistoryItem} (h : l ≠ []) :
    ∃ x, l.getLast? = some x := by
  cases hx : l.getLast? with
  | none => exact absurd (List.getLast?_eq_none_iff.mp hx) h
  | some x => exact ⟨x, rfl⟩

/-- The strict-record scan stays below the number of indices handed out. -/
theorem recomputedIndexAux_lt :
    ∀ (pending : List VersionHistory) (curIdx : Nat) (curV : Int) (i : Nat),
    curIdx < i → recomputedIndexAux curIdx curV i pending < i + pending.length := by
  intro pending
  induction pending with
  | nil =>
    intro curIdx curV i hlt
    simpa [recomputedIndexAux] using hlt
  | cons vh rest ih =>
    intro curIdx curV i hlt
    unfold recomputedIndexAux
    by_cases hflip : lastVersionD vh > curV
    · rw [if_pos hflip]
      have := ih i (lastVersionD vh) (i + 1) (by omega)
      simp only [List.length_cons]
      omega
    · rw [if_neg hflip]
      have := ih curIdx curV (i + 1) (by omega)
      simp only [List.length_cons]
      omega

/-- Truncation to int32 is the identity on the int32 range. -/
theorem wrap32_eq_self {i : Int} (h0 : 0 ≤ i) (hlt : i < 2 ^ 31) :
    wrap32 i = i := by
  unfold wrap32
  rw [Int.emod_eq_of_lt (by omega) (by omega)]
  omega

/-- The rebuild loop of the thrift decode on wire forms of valid non-empty
histories that all share the same first item: every branch is appended and
the current index follows the strict-record scan of last-item versions. -/
theorem historiesFromThriftLoop_ok (firstItem : VersionHistoryItem) :
    ∀ (pending done : List VersionHistory) (curIdx : Nat) (curH : VersionHistory),
    curIdx < done.length →
    (∀ v ∈ done, validHistory v ∧ v.items ≠ [] ∧ v.items.head? = some firstItem) →
    (∀ v ∈ pending, validHistory v ∧ v.items ≠ [] ∧ v.items.head? = some firstItem) →
    done.get? curIdx = some curH →
    historiesFromThriftLoop
        { currentVersionHistoryIndex := (curIdx : Int), histories := done }
        (pending.map VersionHistory.toThrift) =
      .ok { currentVersionHistoryIndex :=
              (recomputedIndexAux curIdx (lastVersionD curH) done.length pending : Int),
            histories := done ++ pending } := by
  intro pending
  induction pending with
  | nil =>
    intro done curIdx curH hlt hdone hpend hget
    simp [historiesFromThriftLoop, recomputedIndexAux]
  | cons vh rest ih =>
    intro done curIdx curH hlt hdone hpend hget
    obtain ⟨hvh, hvhne, hvhfirst⟩ := hpend vh (by simp)
    obtain ⟨hcurvalid, hcurne, hcurfirst⟩ := hdone curH (List.get?_mem hget)
    obtain ⟨vLast, hvl⟩ := getLast?_exists hvhne
    obtain ⟨curLast, hcl⟩ := getLast?_exists hcurne
    have hlastV : lastVersionD vh = vLast.version := by simp [lastVersionD, hvl]
    have hlastC : lastVersionD curH = curLast.version := by simp [lastVersionD, hcl]
    have hadd := addVersionHistory_ok
      (h := { currentVersionHistoryIndex := (curIdx : Int), histories := done })
      (by show (0 : Int) ≤ (curIdx : Int); omega)
      (by show ((curIdx : Int)) < ((done.length : Nat) : Int); omega)
      hcurvalid hvh hvhfirst
      (by show done.get? ((curIdx : Int)).toNat = some curH
          rw [Int.toNat_natCast]
          exact hget)
      hcurfirst hvl hcl rfl
    have hstep : addFromThriftStep
        { currentVersionHistoryIndex := (curIdx : Int), histories := done }
        vh.toThrift =
      .ok { currentVersionHistoryIndex :=
              if curLast.version < vLast.version then
                ((done.length : Nat) : Int)
              else (curIdx : Int),
            histories := done ++ [vh] } := by
      unfold addFromThriftStep
      simp only [roundtripVH hvh, hadd]
    have hpend' : ∀ v ∈ rest,
        validHistory v ∧ v.items ≠ [] ∧ v.items.head? = some firstItem :=
      fun y hy => hpend y (by simp [hy])
    have hdone' : ∀ v ∈ done ++ [vh],
        validHistory v ∧ v.items ≠ [] ∧ v.items.head? = some firstItem := by
      intro y hy
      rcases List.mem_append.mp hy with hm | hm
      · exact hdone y hm
      · rw [List.mem_singleton] at hm
        subst hm
        exact ⟨hvh, hvhne, hvhfirst⟩
    simp only [List.map_cons, historiesFromThriftLoop, hstep]
    by_cases hflip : curLast.version < vLast.version
    · rw [if_pos hflip]
      rw [ih (done ++ [vh]) done.length vh (by simp) hdone' hpend'
        (List.get?_concat_length done vh)]
      simp [recomputedIndexAux, hlastV, hlastC, hflip]
    · rw [if_neg hflip]
      rw [ih (done ++ [vh]) curIdx curH (by simp; omega) hdone' hpend'
        (by rw [List.get?_append hlt]; exact hget)]
      simp [recomputedIndexAux, hlastV, hlastC, hflip]

/-- A valid collection whose stored current index (0) disagrees with the index
the decode loop recomputes (1, because the second branch has the larger
last-item version). -/
def mismatchHistories : VersionHistories :=
  { currentVersionHistoryIndex := 0,
    histories := [{ branchToken := [],
                    items := [{ eventID := 1, version := 0 }] },
                  { branchToken := [],
                    items := [{ eventID := 1, version := 0 },
                              { eventID := 2, version := 5 }] }] }

/-- C5 counterexample: a valid VersionHistories value (current index 0, in
range, shared first item, strictly increasing branches) whose wire round trip
panics with the current-index mismatch instead of returning the value:
rebuilding through AddVersionHistory switches the current index to the branch
with the larger last-item version. -/
theorem thrift_roundtrip_panics :
    validHistories mismatchHistories ∧
    newVersionHistoriesFromThrift mismatchHistories.toThrift =
      .error (.panicked "unable to initialize version histories: current index mismatch") := by
  constructor
  · refine ⟨?_, by decide, by decide, ⟨{ eventID := 1, version := 0 }, by decide⟩⟩
    intro v hv
    unfold mismatchHistories at hv
    simp only [List.mem_cons, List.mem_singleton, List.not_mem_nil, or_false] at hv
    rcases hv with hv | hv <;> subst hv <;> exact ⟨by decide, by decide⟩
  · rfl

/-- C5 amended: for a valid VersionHistory the wire round trip is the
identity; for a valid VersionHistories it is the identity provided the stored
current index equals the index the decode loop recomputes (the strict-record
scan of last-item versions) and the collection is small enough for the index
to survive the int32 wire field; the counterexample shows the decode panics
when the stored index disagrees. -/
theorem thrift_roundtrip :
    (∀ v : VersionHistory, validHistory v →
      newVersionHistoryFromThrift v.toThrift = .ok v) ∧
    (∀ h : VersionHistories, validHistories h →
      h.currentVersionHistoryIndex = (recomputedIndex h.histories : Int) →
      (h.histories.length : Int) ≤ 2 ^ 31 →
      newVersionHistoriesFromThrift h.toThrift = .ok h) := by
  constructor
  · intro v hv
    exact roundtripVH hv
  · intro h hval hidx hbound
    obtain ⟨hall, h0, hlen, firstItem, hfirst⟩ := hval
    cases hh : h.histories with
    | nil =>
      rw [hh] at hlen
      simp at hlen
      omega
    | cons v₀ rest =>
      have hv₀ := hall v₀ (by rw [hh]; simp)
      have hv₀first := hfirst v₀ (by rw [hh]; simp)
      have hloop := historiesFromThriftLoop_ok firstItem rest [v₀] 0 v₀
        (by simp)
        (by intro y hy
            rw [List.mem_singleton] at hy
            subst hy
            exact ⟨hv₀.1, hv₀.2, hv₀first⟩)
        (by intro y hy
            refine ⟨(hall y ?_).1, (hall y ?_).2, hfirst y ?_⟩ <;>
              rw [hh] <;> simp [hy])
        rfl
      rw [Nat.cast_zero] at hloop
      simp only [List.length_singleton, List.singleton_append] at hloop
      have hrec_lt : recomputedIndex h.histories < h.histories.length := by
        rw [hh]
        unfold recomputedIndex
        have := recomputedIndexAux_lt rest 0 (lastVersionD v₀) 1 (by omega)
        simp only [List.length_cons]
        omega
      have hwrap : wrap32 h.currentVersionHistoryIndex =
          h.currentVersionHistoryIndex := by
        rw [hidx]
        apply wrap32_eq_self (by omega)
        have hcast : (recomputedIndex h.histories : Int) <
            (h.histories.length : Int) := by exact_mod_cast hrec_lt
        omega
      have hrecdef : recomputedIndex h.histories =
          recomputedIndexAux 0 (lastVersionD v₀) 1 rest := by
        rw [hh]
        rfl
      unfold newVersionHistoriesFromThrift VersionHistories.toThrift
      simp only [hh, List.map_cons, roundtripVH hv₀.1, newVersionHistories,
        Option.getD_some, hloop]
      rw [hwrap, hidx, hrecdef]
      simp only [bne_self_eq_false, Bool.false_eq_true, if_false]
      rw [← hrecdef, ← hidx, ← hh]

/-- A valid collection whose stored current index (1) is the one the decode
loop recomputes: the second branch carries the larger last-item version. -/
def dominantHistories : VersionHistories :=
  { currentVersionHistoryIndex := 1,
    histories := [{ branchToken := [],
                    items := [{ eventID := 1, version := 0 }] },
                  { branchToken := [],
                    items := [{ eventID := 1, version := 0 },
                              { eventID := 2, version := 5 }] }] }

/-- C5 amended witness: a concrete valid history (with a non-empty branch
token) and a concrete valid collection in canonical index position both
survive the wire round trip unchanged. -/
theorem thrift_roundtrip_witness :
    validHistory { branchToken := [3, 4],
                   items := [{ eventID := 1, version := 0 },
                             { eventID := 5, version := 2 }] } ∧
    newVersionHistoryFromThrift
        (VersionHistory.toThrift
          { branchToken := [3, 4],
            items := [{ eventID := 1, version := 0 },
                      { eventID := 5, version := 2 }] }) =
      .ok { branchToken := [3, 4],
            items := [{ eventID := 1, version := 0 },
                      { eventID := 5, version := 2 }] } ∧
    validHistories dominantHistories ∧
    dominantHistories.currentVersionHistoryIndex =
      (recomputedIndex dominantHistories.histories : Int) ∧
    (dominantHistories.histories.length : Int) ≤ 2 ^ 31 ∧
    newVersionHistoriesFromThrift dominantHistories.toThrift =
      .ok dominantHistories := by
  have hval : validHistories dominantHistories := by
    refine ⟨?_, by decide, by decide, ⟨{ eventID := 1, version := 0 }, by decide⟩⟩
    intro v hv
    unfold dominantHistories at hv
    simp only [List.mem_cons, List.mem_singleton, List.not_mem_nil, or_false] at hv
    rcases hv with hv | hv <;> subst hv <;> exact ⟨by decide, by decide⟩
  exact ⟨by decide, thrift_roundtrip.1 _ (by decide), hval, by decide, by decide,
    thrift_roundtrip.2 dominantHistories hval (by decide) (by decide)⟩

end Cadence
